import Mathlib

/-!
Verification development for the ai-price-tracker backend core:
the shared Gemini rate limiter, the streaming-request retry loop,
the per-user search quota gate, the LLM product-intelligence
operations with their parse/fallback logic, and the linear
price-intelligence workflow.

Shallow embedding conventions:
* JavaScript `Date` values are modelled by `JsDate`, carrying the epoch
  milliseconds (`getTime`) together with the calendar fields the code
  reads (`getFullYear`/`getMonth`/`getDate`); arithmetic is exact
  (no DST model, UTC-flat days).
* JavaScript numbers on the code paths the claims touch are integers or
  exact rationals, modelled by `Int`/`Rat`; the values `Infinity` and
  `-Infinity` produced by `Math.min()`/`Math.max()` on empty argument
  lists are modelled by `JNum`.
* Thrown exceptions become `Except`/`Option` results; the in-place
  mutation of the shared `RateLimiter` singleton and of user documents
  becomes explicit state passing.
-/

/-- Model of a JavaScript `Date`: epoch milliseconds plus the calendar
fields read by the code (`getFullYear`, `getMonth` 0-11, `getDate` 1-31). -/
structure JsDate where
  epochMs : Int
  year : Int
  month : Nat
  day : Nat
deriving DecidableEq, Repr

/-- Number of days in a month (`month` is 0-based as in JS). -/
def daysInMonth (year : Int) (month : Nat) : Nat :=
  if month = 1 then
    if year % 4 = 0 ∧ (year % 100 ≠ 0 ∨ year % 400 = 0) then 29 else 28
  else if month = 3 ∨ month = 5 ∨ month = 8 ∨ month = 10 then 30
  else 31

/-- Advance a date by one civil day (UTC-flat: +86400000 ms). -/
def nextDay (d : JsDate) : JsDate :=
  if d.day < daysInMonth d.year d.month then
    { d with epochMs := d.epochMs + 86400000, day := d.day + 1 }
  else if d.month < 11 then
    { d with epochMs := d.epochMs + 86400000, day := 1, month := d.month + 1 }
  else
    { epochMs := d.epochMs + 86400000, day := 1, month := 0, year := d.year + 1 }

/-- Model of the JS idiom `date.setDate(date.getDate() + n)`: advance by
`n` civil days. -/
def addDays (d : JsDate) : Nat → JsDate
  | 0 => d
  | n + 1 => nextDay (addDays d n)

/-- `GEMINI_CONFIG.requestsPerMinute` (geminiConfig.ts). -/
def requestsPerMinute : Nat := 60

/-- `GEMINI_CONFIG.requestsPerDay` (geminiConfig.ts). -/
def requestsPerDay : Nat := 1000

/-- `GEMINI_CONFIG.maxRetries` (geminiConfig.ts). -/
def geminiMaxRetries : Nat := 3

/-- Mutable fields of the `RateLimiter` class (geminiConfig.ts):
per-minute and per-day counters with their window-start dates. -/
structure RateLimiterState where
  requests : Nat
  dailyRequests : Nat
  lastReset : JsDate
  dailyReset : JsDate
deriving DecidableEq, Repr

/-- A fresh `RateLimiter` as constructed at module load: both counters 0,
both window starts at the construction time. -/
def rateLimiterStart (t : JsDate) : RateLimiterState :=
  { requests := 0, dailyRequests := 0, lastReset := t, dailyReset := t }

/-- `RateLimiter.canMakeRequest` (geminiConfig.ts lines 106-121).
Rolls the minute window forward when 60000 ms have elapsed, resets the
day counter when `now.getDate()` differs from the stored day-window
start's `getDate()`, then compares both counters against the ceilings.
The method mutates the limiter, so the embedding returns the verdict
together with the updated state. -/
def canMakeRequest (s : RateLimiterState) (now : JsDate) : Bool × RateLimiterState :=
  let s1 :=
    if 60000 ≤ now.epochMs - s.lastReset.epochMs then
      { s with requests := 0, lastReset := now }
    else s
  let s2 :=
    if now.day ≠ s1.dailyReset.day then
      { s1 with dailyRequests := 0, dailyReset := now }
    else s1
  (decide (s2.requests < requestsPerMinute) && decide (s2.dailyRequests < requestsPerDay), s2)

/-- `RateLimiter.recordRequest` (geminiConfig.ts lines 123-126). -/
def recordRequest (s : RateLimiterState) : RateLimiterState :=
  { s with requests := s.requests + 1, dailyRequests := s.dailyRequests + 1 }

/-- `RateLimiter.getRemainingRequests` (geminiConfig.ts lines 128-133). -/
def getRemainingRequests (s : RateLimiterState) : Nat × Nat :=
  (requestsPerMinute - s.requests, requestsPerDay - s.dailyRequests)

/-- One serialized `canMakeRequest`-then-`recordRequest` pair: the caller
records a request exactly when the immediately preceding check allowed it
(the protocol `makeGeminiRequest` follows). -/
def canThenRecord (s : RateLimiterState) (now : JsDate) : RateLimiterState :=
  let (ok, s1) := canMakeRequest s now
  if ok then recordRequest s1 else s1

/-- A serialized sequence of check-then-record pairs at the given times. -/
def runCalls (s : RateLimiterState) (times : List JsDate) : RateLimiterState :=
  times.foldl canThenRecord s

/-- Failure message of `makeStreamingRequest` after retry exhaustion
(geminiConfig.ts line 98); `lastError` is `undefined` when no attempt ran. -/
def msrFailMsg (maxRetries : Nat) (lastError : Option String) : String :=
  "Gemini streaming request failed after " ++ toString maxRetries ++ " attempts: " ++
    (match lastError with
     | some e => e
     | none => "undefined")

/-- Retry loop of `makeStreamingRequest` (geminiConfig.ts lines 71-96),
parametrised by an oracle giving each attempt's outcome (the whole
streamed request either yields its concatenated text or fails).  Returns
the overall outcome together with the number of attempts performed. -/
def msrLoop (oracle : Nat → Except String String) (maxRetries attempt : Nat)
    (lastError : Option String) : Except String String × Nat :=
  if h : maxRetries < attempt then
    (Except.error (msrFailMsg maxRetries lastError), attempt - 1)
  else
    match oracle attempt with
    | Except.ok text => (Except.ok text, attempt)
    | Except.error e => msrLoop oracle maxRetries (attempt + 1) (some e)
termination_by maxRetries + 1 - attempt
decreasing_by omega

/-- `makeStreamingRequest` (geminiConfig.ts lines 62-99): up to
`maxRetries` attempts starting at attempt 1. -/
def makeStreamingRequest (oracle : Nat → Except String String)
    (maxRetries : Nat := geminiMaxRetries) : Except String String × Nat :=
  msrLoop oracle maxRetries 1 none

/-- Message of the `Rate limit exceeded` error thrown by
`makeGeminiRequest` (ProductIntelligence.service.ts line 54). -/
def rateLimitMsg (remaining : Nat × Nat) : String :=
  "Rate limit exceeded. Remaining: \x7b\x22perMinute\x22:" ++ toString remaining.1 ++
    ",\x22perDay\x22:" ++ toString remaining.2 ++ "\x7d"

/-- Outcome of one `makeGeminiRequest` call: the result, the rate-limiter
state it leaves behind, and how many upstream attempts it issued. -/
structure GeminiCallResult where
  result : Except String String
  quota : RateLimiterState
  attemptsUsed : Nat
deriving Repr

/-- `ProductIntelligenceService.makeGeminiRequest`
(ProductIntelligence.service.ts lines 52-66): consult the shared rate
limiter, fail fast when it denies, otherwise record one request and issue
the streaming request with its internal retry loop. -/
def makeGeminiRequest (q : RateLimiterState) (now : JsDate)
    (oracle : Nat → Except String String) : GeminiCallResult :=
  let (ok, q1) := canMakeRequest q now
  if ok then
    let q2 := recordRequest q1
    let (r, used) := makeStreamingRequest oracle
    { result := r, quota := q2, attemptsUsed := used }
  else
    { result := Except.error (rateLimitMsg (getRemainingRequests q1)), quota := q1, attemptsUsed := 0 }

/-- User-document fields the quota logic reads (models/User.ts):
`searchCount` and the nullable `searchLimitResetsAt`. -/
structure UserRec where
  searchCount : Nat
  searchLimitResetsAt : Option JsDate
deriving DecidableEq, Repr

/-- `SEARCH_LIMIT` of the validation-layer gate (checkSearchLimit middleware). -/
def SEARCH_LIMIT : Nat := 3

/-- Verdict of the validation-layer search gate. -/
inductive GateResult where
  | allow
  | denyLimit (limitResetsAt : Option JsDate)
  | userNotFound
deriving DecidableEq, Repr

/-- `checkSearchLimit` middleware: lazily reset the counter when the
stored reset time lies strictly in the past (`now > resetsAt`), clearing
`searchLimitResetsAt`; then deny with the (post-reset) stored reset time
when `searchCount` has reached `SEARCH_LIMIT`, else allow.  Returns the
verdict and the possibly-updated user document. -/
def checkSearchLimit (user : Option UserRec) (now : JsDate) : GateResult × Option UserRec :=
  match user with
  | none => (GateResult.userNotFound, none)
  | some u =>
    let u1 :=
      match u.searchLimitResetsAt with
      | some r =>
        if r.epochMs < now.epochMs then
          { u with searchCount := 0, searchLimitResetsAt := none }
        else u
      | none => u
    if SEARCH_LIMIT ≤ u1.searchCount then
      (GateResult.denyLimit u1.searchLimitResetsAt, some u1)
    else
      (GateResult.allow, some u1)

/-- `incrementUserSearchCount` (product.service.ts lines 364-376): on a
missing user do nothing; otherwise set `searchLimitResetsAt` to now plus
seven days exactly when `searchCount` is 0, then increment the count. -/
def incrementUserSearchCount (user : Option UserRec) (now : JsDate) : Option UserRec :=
  match user with
  | none => none
  | some u =>
    let u1 :=
      if u.searchCount = 0 then
        { u with searchLimitResetsAt := some (addDays now 7) }
      else u
    some { u1 with searchCount := u1.searchCount + 1 }

/-- Outcome summary of `searchAndAnalyze`. -/
inductive SAOutcome where
  | cachedHit
  | completed
deriving DecidableEq, Repr

/-- Control flow of `searchAndAnalyze` (product.service.ts lines 16-64)
around its external collaborators: a recent cached search short-circuits
the call, a workflow abort propagates (the increment line is never
reached), and only a completed workflow increments the user's search
count via `incrementUserSearchCount`.  The cache lookup and the workflow
outcome are inputs; the user document is threaded explicitly. -/
def searchAndAnalyze (cached : Option (List (String × Int)))
    (wf : Except String (List (String × Int)))
    (user : Option UserRec) (now : JsDate) :
    Except String (SAOutcome × Option UserRec) :=
  match cached with
  | some _ => Except.ok (SAOutcome.cachedHit, user)
  | none =>
    match wf with
    | Except.error e => Except.error e
    | Except.ok _ => Except.ok (SAOutcome.completed, incrementUserSearchCount user now)

/-- Double-quote character. -/
def quoteChar : Char := Char.ofNat 34

/-- Backslash character. -/
def backslashChar : Char := Char.ofNat 92

/-- Opening-brace character. -/
def lbraceChar : Char := Char.ofNat 123

/-- Closing-brace character. -/
def rbraceChar : Char := Char.ofNat 125

/-- ASCII decimal-digit test. -/
def isDigitCh (c : Char) : Bool := 48 ≤ c.toNat && c.toNat ≤ 57

/-- Digit character for a value below 10. -/
def digitChar (n : Nat) : Char := Char.ofNat (48 + n)

/-- Model of a JSON value as handled by the platform `JSON.parse` /
`JSON.stringify` pair.  Numbers are restricted to integers: every numeric
literal on the verified code paths is integral. -/
inductive Json where
  | null
  | bool (b : Bool)
  | num (n : Int)
  | str (s : String)
  | arr (elems : List Json)
  | obj (fields : List (String × Json))

mutual

/-- Structural weight of a JSON value, used as the parser fuel bound
(payload-independent, unlike the automatic `sizeOf`). -/
def sizeJ : Json → Nat
  | Json.null => 1
  | Json.bool _ => 1
  | Json.num _ => 1
  | Json.str _ => 1
  | Json.arr xs => 2 + sizeL xs
  | Json.obj kvs => 2 + sizeF kvs

/-- Structural weight of a JSON array's element list. -/
def sizeL : List Json → Nat
  | [] => 0
  | x :: xs => 1 + sizeJ x + sizeL xs

/-- Structural weight of a JSON object's field list. -/
def sizeF : List (String × Json) → Nat
  | [] => 0
  | (_, v) :: kvs => 1 + sizeJ v + sizeF kvs

end

/-- Decimal digits of a natural number, most significant first. -/
def natChars (n : Nat) : List Char :=
  if n < 10 then [digitChar n]
  else natChars (n / 10) ++ [digitChar (n % 10)]
termination_by n
decreasing_by exact Nat.div_lt_self (by omega) (by omega)

/-- Serialization of an integer numeral. -/
def emitInt (n : Int) : List Char :=
  if n < 0 then '-' :: natChars n.natAbs else natChars n.toNat

/-- String-content escaping of `JSON.stringify`, restricted to the
double-quote and backslash escapes; other characters pass through
literally (self-consistently with `parseStrBody` below). -/
def escapeChars : List Char → List Char
  | [] => []
  | c :: cs =>
    if c = quoteChar ∨ c = backslashChar then backslashChar :: c :: escapeChars cs
    else c :: escapeChars cs

mutual

/-- Serialization of a JSON value — the platform `JSON.stringify` with no
indentation, on the modelled fragment. -/
def emitVal : Json → List Char
  | Json.null => ['n', 'u', 'l', 'l']
  | Json.bool true => ['t', 'r', 'u', 'e']
  | Json.bool false => ['f', 'a', 'l', 's', 'e']
  | Json.num n => emitInt n
  | Json.str s => quoteChar :: (escapeChars s.data ++ [quoteChar])
  | Json.arr elems => '[' :: (emitElems elems ++ [']'])
  | Json.obj fields => lbraceChar :: (emitFields fields ++ [rbraceChar])

/-- Serialization of an array's elements (comma-separated). -/
def emitElems : List Json → List Char
  | [] => []
  | x :: xs => emitVal x ++ emitRest xs

/-- Serialization of the elements after the first. -/
def emitRest : List Json → List Char
  | [] => []
  | x :: xs => ',' :: (emitVal x ++ emitRest xs)

/-- Serialization of an object's fields (comma-separated). -/
def emitFields : List (String × Json) → List Char
  | [] => []
  | kv :: kvs => emitField kv ++ emitFieldsRest kvs

/-- Serialization of the fields after the first. -/
def emitFieldsRest : List (String × Json) → List Char
  | [] => []
  | kv :: kvs => ',' :: (emitField kv ++ emitFieldsRest kvs)

/-- Serialization of one key/value field. -/
def emitField : String × Json → List Char
  | (k, v) => quoteChar :: (escapeChars k.data ++ [quoteChar, ':'] ++ emitVal v)

end

/-- Parse the body of a JSON string after its opening quote, returning
the unescaped content and the remainder after the closing quote. -/
def parseStrBody : List Char → Option (List Char × List Char)
  | [] => none
  | c :: cs =>
    if c = quoteChar then some ([], cs)
    else if c = backslashChar then
      match cs with
      | [] => none
      | d :: cs2 =>
        if d = quoteChar ∨ d = backslashChar then
          match parseStrBody cs2 with
          | some (content, rest) => some (d :: content, rest)
          | none => none
        else none
    else
      match parseStrBody cs with
      | some (content, rest) => some (c :: content, rest)
      | none => none

/-- Greedily consume decimal digits, accumulating their value. -/
def parseNatAcc (acc : Nat) : List Char → Nat × List Char
  | [] => (acc, [])
  | c :: cs =>
    if isDigitCh c then parseNatAcc (acc * 10 + (c.toNat - 48)) cs
    else (acc, c :: cs)

mutual

/-- Recursive-descent parser for the modelled JSON fragment (fuelled;
integer numerals, two-escape strings, no interstitial whitespace).
Together with `parseJson` this embeds the platform `JSON.parse` on the
fragment the code exercises. -/
def parseVal : Nat → List Char → Option (Json × List Char)
  | 0, _ => none
  | fuel + 1, cs =>
    match cs with
    | [] => none
    | c :: cs1 =>
      if c = '[' then
        match cs1 with
        | [] => none
        | d :: cs2 =>
          if d = ']' then some (Json.arr [], cs2)
          else
            match parseVal fuel cs1 with
            | some (v, r) => parseArrRest fuel [v] r
            | none => none
      else if c = lbraceChar then
        match cs1 with
        | [] => none
        | d :: cs2 =>
          if d = rbraceChar then some (Json.obj [], cs2)
          else
            match parseField fuel cs1 with
            | some (kv, r) => parseObjRest fuel [kv] r
            | none => none
      else if c = quoteChar then
        match parseStrBody cs1 with
        | some (content, rest) => some (Json.str (String.mk content), rest)
        | none => none
      else if c = 'n' then
        match cs1 with
        | u :: l1 :: l2 :: rest =>
          if u = 'u' ∧ l1 = 'l' ∧ l2 = 'l' then some (Json.null, rest) else none
        | _ => none
      else if c = 't' then
        match cs1 with
        | r1 :: u :: e :: rest =>
          if r1 = 'r' ∧ u = 'u' ∧ e = 'e' then some (Json.bool true, rest) else none
        | _ => none
      else if c = 'f' then
        match cs1 with
        | a :: l :: s :: e :: rest =>
          if a = 'a' ∧ l = 'l' ∧ s = 's' ∧ e = 'e' then some (Json.bool false, rest) else none
        | _ => none
      else if c = '-' then
        match cs1 with
        | [] => none
        | d :: _ =>
          if isDigitCh d then
            let p := parseNatAcc 0 cs1
            some (Json.num (-(p.1 : Int)), p.2)
          else none
      else if isDigitCh c then
        let p := parseNatAcc 0 (c :: cs1)
        some (Json.num (p.1 : Int), p.2)
      else none

/-- Parse one `"key":value` field. -/
def parseField : Nat → List Char → Option ((String × Json) × List Char)
  | 0, _ => none
  | fuel + 1, cs =>
    match cs with
    | [] => none
    | c :: cs1 =>
      if c = quoteChar then
        match parseStrBody cs1 with
        | some (key, r1) =>
          match r1 with
          | [] => none
          | c2 :: r2 =>
            if c2 = ':' then
              match parseVal fuel r2 with
              | some (v, r3) => some ((String.mk key, v), r3)
              | none => none
            else none
        | none => none
      else none

/-- Parse the continuation of an array after at least one element. -/
def parseArrRest : Nat → List Json → List Char → Option (Json × List Char)
  | 0, _, _ => none
  | fuel + 1, acc, cs =>
    match cs with
    | [] => none
    | c :: cs1 =>
      if c = ']' then some (Json.arr acc, cs1)
      else if c = ',' then
        match parseVal fuel cs1 with
        | some (v, r) => parseArrRest fuel (acc ++ [v]) r
        | none => none
      else none

/-- Parse the continuation of an object after at least one field. -/
def parseObjRest : Nat → List (String × Json) → List Char → Option (Json × List Char)
  | 0, _, _ => none
  | fuel + 1, acc, cs =>
    match cs with
    | [] => none
    | c :: cs1 =>
      if c = rbraceChar then some (Json.obj acc, cs1)
      else if c = ',' then
        match parseField fuel cs1 with
        | some (kv, r) => parseObjRest fuel (acc ++ [kv]) r
        | none => none
      else none

end

/-- Embedded `JSON.parse` on the modelled fragment: parse one value and
require full consumption of the input. -/
def parseJson (cs : List Char) : Option Json :=
  match parseVal (2 * cs.length + 2) cs with
  | some (j, []) => some j
  | _ => none

/-- Embedded `JSON.stringify` on the modelled fragment. -/
def Json.stringify (j : Json) : String := String.mk (emitVal j)

/-- Embedding of the greedy-outer bracket match
(`text.match(/\[[\s\S]*\]/)` and its brace analogue): the span from the
first opener to the last closer, when the last closer follows the first
opener. -/
def extractSpan (opener closer : Char) (cs : List Char) : Option (List Char) :=
  let s1 := cs.dropWhile (fun c => c != opener)
  let s2 := (s1.reverse.dropWhile (fun c => c != closer)).reverse
  if s1.isEmpty || s2.isEmpty then none else some s2

/-- Array extraction of the search path
(ProductIntelligence.service.ts lines 116-121): greedy-outer bracket
match, then deserialize. -/
def extractJsonArray (text : String) : Option Json :=
  match extractSpan '[' ']' text.data with
  | some span => parseJson span
  | none => none

/-- Non-digit-headed remainders (the delimiters that can follow a
serialized value inside a composite, and the empty remainder). -/
def delimOk : List Char → Bool
  | [] => true
  | c :: _ => !(isDigitCh c)

/-- Characters that can open a serialized JSON value. -/
def goodStart (d : Char) : Bool :=
  d = '[' || d = lbraceChar || d = quoteChar || d = 'n' || d = 't' || d = 'f' ||
    d = '-' || isDigitCh d

/-- Last-occurrence field lookup of a parsed JSON object (duplicate keys
in `JSON.parse` resolve to the last occurrence). -/
def lookupLast : List (String × Json) → String → Option Json
  | [], _ => none
  | (k, v) :: rest, key =>
    match lookupLast rest key with
    | some w => some w
    | none => if k = key then some v else none

/-- Property read `j[key]`; non-objects yield `undefined` (`none`). -/
def getField (j : Json) (key : String) : Option Json :=
  match j with
  | Json.obj fields => lookupLast fields key
  | _ => none

/-- JavaScript truthiness of a possibly-absent JSON value. -/
def jsTruthy : Option Json → Bool
  | none => false
  | some Json.null => false
  | some (Json.bool b) => b
  | some (Json.num n) => decide (n ≠ 0)
  | some (Json.str s) => decide (s ≠ "")
  | some (Json.arr _) => true
  | some (Json.obj _) => true

/-- Hexadecimal digit (uppercase). -/
def hexDigitCh (n : Nat) : Char :=
  if n < 10 then Char.ofNat (48 + n) else Char.ofNat (55 + n)

/-- Modelled from the platform: `encodeURIComponent` restricted to
single-byte code points — unreserved characters pass through, the rest
percent-encode. -/
def encodeURIComponentChar (c : Char) : List Char :=
  if c.isAlphanum || c = '-' || c = '_' || c = '.' || c = '!' || c = '~' ||
      c = '*' || c = '(' || c = ')' || c.toNat = 39 then [c]
  else ['%', hexDigitCh (c.toNat / 16 % 16), hexDigitCh (c.toNat % 16)]

/-- Modelled from the platform: `encodeURIComponent`. -/
def encodeURIComponent (s : String) : String :=
  String.mk (s.data.map encodeURIComponentChar).flatten

/-- `generatePlatformUrl` (ProductIntelligence.service.ts lines 289-301):
platform-keyed search-URL table with a Google-search default; a
non-string platform misses the table. -/
def generatePlatformUrl (platform : Option Json) (query : String) : String :=
  let encodedQuery := encodeURIComponent query
  match platform with
  | some (Json.str p) =>
    if p = "amazon" then "https://www.amazon.in/s?k=" ++ encodedQuery
    else if p = "flipkart" then "https://www.flipkart.com/search?q=" ++ encodedQuery
    else if p = "myntra" then "https://www.myntra.com/" ++ encodedQuery
    else if p = "meesho" then "https://www.meesho.com/search?q=" ++ encodedQuery
    else "https://www.google.com/search?q=" ++ encodedQuery
  | _ => "https://www.google.com/search?q=" ++ encodedQuery

/-- Overwrite (or append) the `url` field, as the spread
`{...product, url: …}` does. -/
def setUrlField (fields : List (String × Json)) (u : Json) : List (String × Json) :=
  if fields.any (fun kv => kv.1 = "url") then
    fields.map (fun kv => if kv.1 = "url" then ("url", u) else kv)
  else fields ++ [("url", u)]

/-- One element of the search result map
(`{...product, url: product.url || generatePlatformUrl(product.platform,
query)}`); property access on `null` throws, aborting the `.map` into
the catch (non-object primitives spread to a url-only object). -/
def mapUrlElem (query : String) (p : Json) : Option Json :=
  match p with
  | Json.null => none
  | Json.obj fields =>
    let u :=
      if jsTruthy (lookupLast fields "url") then
        (lookupLast fields "url").getD Json.null
      else Json.str (generatePlatformUrl (lookupLast fields "platform") query)
    some (Json.obj (setUrlField fields u))
  | _ => some (Json.obj [("url", Json.str (generatePlatformUrl none query))])

/-- The `.map` over the decoded elements; a throwing element aborts. -/
def mapWithUrl (query : String) : List Json → Option (List Json)
  | [] => some []
  | p :: ps =>
    match mapUrlElem query p, mapWithUrl query ps with
    | some q, some qs => some (q :: qs)
    | _, _ => none

/-- `getFallbackResults` (ProductIntelligence.service.ts lines 303-313):
the single out-of-stock placeholder listing echoing the query. -/
def getFallbackResults (query : String) : List Json :=
  [Json.obj [("title", Json.str (query ++ " - Product Not Found")),
             ("price", Json.num 0),
             ("availability", Json.str "out_of_stock"),
             ("platform", Json.str "unknown"),
             ("url", Json.str "#")]]

/-- Successful-path decoding of the search response: greedy-outer
bracket span, deserialize, and require a JSON array (`.map` on a
non-array throws into the catch). -/
def parseSearchText (text : String) : Option (List Json) :=
  match extractSpan '[' ']' text.data with
  | none => none
  | some span =>
    match parseJson span with
    | some (Json.arr elems) => some elems
    | _ => none

/-- `searchProductsAcrossPlatforms`
(ProductIntelligence.service.ts lines 68-130), parametrised by the
outcome of `makeGeminiRequest`: on success decode the response array and
default each element's `url`; every failure path (upstream error, no
bracket span, malformed JSON, non-array payload, throwing element) is
caught and falls back to the placeholder. -/
def searchProductsAcrossPlatforms (query : String)
    (upstream : Except String String) : List Json :=
  match upstream with
  | Except.error _ => getFallbackResults query
  | Except.ok text =>
    match parseSearchText text with
    | none => getFallbackResults query
    | some elems =>
      match mapWithUrl query elems with
      | some products => products
      | none => getFallbackResults query

/-- JavaScript number extended with the infinities that
`Math.min()` / `Math.max()` produce on empty argument lists. -/
inductive JNum where
  | fin (q : Rat)
  | posInf
  | negInf
deriving DecidableEq, Repr

/-- `Math.min(...list)`. -/
def jsMinList : List Rat → JNum
  | [] => JNum.posInf
  | x :: xs => JNum.fin (xs.foldl min x)

/-- `Math.max(...list)`. -/
def jsMaxList : List Rat → JNum
  | [] => JNum.negInf
  | x :: xs => JNum.fin (xs.foldl max x)

/-- Numeric `price` field of a listing, when present
(`p.price` is `undefined` on objects without the field). -/
def jsPrice (p : Json) : Option Rat :=
  match getField p "price" with
  | some (Json.num n) => some ((n : Rat))
  | _ => none

/-- The positive prices of a listing list
(`products.map(p => p.price).filter(p => p > 0)`; non-numeric reads
compare false against 0). -/
def positivePrices (products : List Json) : List Rat :=
  (products.filterMap jsPrice).filter (fun q => decide (0 < q))

/-- Shape of `getFallbackAnalysis`'s result
(ProductIntelligence.service.ts lines 315-334). -/
structure FallbackAnalysis where
  averagePrice : Rat
  rangeMin : JNum
  rangeMax : JNum
  bestDealPlatform : String
  bestDealPrice : JNum
  bestDealReason : String
  emiPlatform : String
  emiReason : String
  marketTrend : String
  recommendedAction : String
  confidence : Nat
  insights : List String
deriving DecidableEq, Repr

/-- `getFallbackAnalysis`: average over the positive prices (0 when none
remain), `Math.min` / `Math.max` over them, the first listing's string
platform (else `unknown`), trend `stable`, action `monitor`,
confidence 50. -/
def getFallbackAnalysis (products : List Json) : FallbackAnalysis :=
  let prices := positivePrices products
  { averagePrice := if prices.length ≠ 0 then prices.sum / (prices.length : Rat) else 0
    rangeMin := jsMinList prices
    rangeMax := jsMaxList prices
    bestDealPlatform :=
      match products.head? with
      | some p =>
        match getField p "platform" with
        | some (Json.str s) => if s ≠ "" then s else "unknown"
        | _ => "unknown"
      | none => "unknown"
    bestDealPrice := jsMinList prices
    bestDealReason := "Lowest available price"
    emiPlatform := "none"
    emiReason := "data not available"
    marketTrend := "stable"
    recommendedAction := "monitor"
    confidence := 50
    insights := ["Limited data available for analysis"] }

/-- Greedy-outer brace span plus deserialization, shared by the
object-shaped operations. -/
def parseObjectText (text : String) : Option Json :=
  match extractSpan lbraceChar rbraceChar text.data with
  | none => none
  | some span => parseJson span

/-- Result of `analyzeMarket`: the raw parsed JSON on success (the
source's unchecked `JSON.parse` cast) or the computed fallback. -/
inductive AnalyzeResult where
  | raw (j : Json)
  | fallback (f : FallbackAnalysis)

/-- `analyzeMarket` (ProductIntelligence.service.ts lines 132-185),
parametrised by the `makeGeminiRequest` outcome: throws only on an
empty input list; otherwise returns the parsed brace span on success and
the fallback on upstream failure, a missing span, or malformed JSON. -/
def analyzeMarket (products : List Json) (upstream : Except String String) :
    Except String AnalyzeResult :=
  if products.length = 0 then Except.error "No products to analyze"
  else
    match upstream with
    | Except.error _ => Except.ok (AnalyzeResult.fallback (getFallbackAnalysis products))
    | Except.ok text =>
      match parseObjectText text with
      | some j => Except.ok (AnalyzeResult.raw j)
      | none => Except.ok (AnalyzeResult.fallback (getFallbackAnalysis products))

/-- `Math.round` (half toward positive infinity). -/
def jsRound (q : Rat) : Int := ⌊q + 1 / 2⌋

/-- Shape of `getFallbackPrediction`'s result (lines 336-345). -/
structure FallbackPrediction where
  rangeMin : Int
  rangeMax : Int
  confidence : Nat
  factors : List String
  bestTimeToBuy : String
deriving DecidableEq, Repr

/-- `getFallbackPrediction`: a ±20% band around the plain mean of all
prices (a missing price reads as 0 in this model), confidence 40. -/
def getFallbackPrediction (products : List Json) : FallbackPrediction :=
  let avgPrice := (products.map (fun p => (jsPrice p).getD 0)).sum / (products.length : Rat)
  { rangeMin := jsRound (avgPrice * (8 / 10))
    rangeMax := jsRound (avgPrice * (12 / 10))
    confidence := 40
    factors := ["Limited historical data", "Market volatility"]
    bestTimeToBuy := "Monitor for better data" }

/-- Result of `predictPriceTrends`: raw parse or fallback. -/
inductive PredictResult where
  | raw (j : Json)
  | fallback (f : FallbackPrediction)

/-- `predictPriceTrends` (lines 187-233), parametrised by the upstream
outcome; never throws. -/
def predictPriceTrends (products : List Json) (upstream : Except String String) :
    PredictResult :=
  match upstream with
  | Except.error _ => PredictResult.fallback (getFallbackPrediction products)
  | Except.ok text =>
    match parseObjectText text with
    | some j => PredictResult.raw j
    | none => PredictResult.fallback (getFallbackPrediction products)

/-- Display form of a possibly-absent JSON value inside a template
string (approximate for composite values; no theorem depends on it). -/
def jsDisplay : Option Json → String
  | none => "undefined"
  | some Json.null => "null"
  | some (Json.bool true) => "true"
  | some (Json.bool false) => "false"
  | some (Json.num n) => toString n
  | some (Json.str s) => s
  | some (Json.arr _) => "[array]"
  | some (Json.obj _) => "[object Object]"

/-- Display form of an extended number. -/
def jnumDisplay : JNum → String
  | JNum.fin q => if q.den = 1 then toString q.num else toString q
  | JNum.posInf => "Infinity"
  | JNum.negInf => "-Infinity"

/-- Pipeline stages of the price-intelligence workflow
(LangChainWorkflows / part_002). -/
inductive StageName where
  | checkUserLimits
  | searchProducts
  | analyzeMarket
  | predictTrends
  | generateRecommendations
deriving DecidableEq, Repr

/-- The fixed linear edge list of the compiled graph. -/
def pipelineStages : List StageName :=
  [StageName.checkUserLimits, StageName.searchProducts, StageName.analyzeMarket,
   StageName.predictTrends, StageName.generateRecommendations]

/-- External collaborators of one workflow run: the user document, the
current time, and the `makeGeminiRequest` outcome each service call
would observe. -/
structure WfEnv where
  user : Option UserRec
  now : JsDate
  searchUp : Except String String
  analyzeUp : Except String String
  predictUp : Except String String

/-- The workflow state threaded through the stages (part_002
`WorkflowState`), with LangChain messages reduced to their text. -/
structure WfState where
  query : String
  userId : String
  searchResults : List Json
  marketAnalysis : Option AnalyzeResult
  pricePredicition : Option PredictResult
  recommendations : Option Json
  messages : List String
  scrapedData : List (String × Json)
  error : Option String

/-- The initial state built by `executeWorkflow`. -/
def initWfState (query userId : String) : WfState :=
  { query := query, userId := userId, searchResults := [], marketAnalysis := none,
    pricePredicition := none, recommendations := none,
    messages := ["Search for: " ++ query], scrapedData := [], error := none }

/-- `checkUserLimitsNode` (part_002 lines 98-127): missing user or an
exhausted weekly budget throws, recording `state.error` before
propagating; the lazy weekly reset zeroes the count and moves `resetsAt`
a week ahead (the persisted `user.save()` is an external effect not
modelled in the state). -/
def checkUserLimitsNode (env : WfEnv) (s : WfState) : Except WfState WfState :=
  match env.user with
  | none => Except.error { s with error := some "Limit check failed: Error: User not found" }
  | some u =>
    let u1 :=
      match u.searchLimitResetsAt with
      | some r =>
        if r.epochMs < env.now.epochMs then
          { u with searchCount := 0, searchLimitResetsAt := some (addDays env.now 7) }
        else u
      | none => u
    if u1.searchCount ≠ 0 ∧ 100 ≤ u1.searchCount then
      let msg := "Limit check failed: Error: Search limit exceeded. Please wait for weekly reset."
      Except.error { s with error := some msg }
    else
      Except.ok { s with messages := s.messages ++ ["User limits checked successfully"] }

/-- Assoc-map `Map.set` (platform-keyed; later writes win). -/
def assocSet (m : List (String × Json)) (k : String) (v : Json) : List (String × Json) :=
  if m.any (fun kv => kv.1 = k) then
    m.map (fun kv => if kv.1 = k then (k, v) else kv)
  else m ++ [(k, v)]

/-- The key a product contributes to `scrapedData`
(non-string platforms keyed by their display form). -/
def platformKey (p : Json) : String := jsDisplay (getField p "platform")

/-- Field subset copied into `scrapedData` per product (properties
absent from the source object are omitted rather than bound to
`undefined`). -/
def scrapedEntry (p : Json) : Json :=
  Json.obj (["url", "price", "availability", "seller", "rating", "reviews",
    "delivery", "title", "brand", "category", "originalPrice",
    "discount"].filterMap (fun k => (getField p k).map (fun v => (k, v))))

/-- `products.forEach(product => scrapedData.set(product.platform, …))`. -/
def buildScrapedData (products : List Json) : List (String × Json) :=
  products.foldl (fun m p => assocSet m (platformKey p) (scrapedEntry p)) []

/-- `searchProductsNode` (part_002 lines 129-169): run the search, throw
(recording `state.error`) when it yields zero listings, otherwise store
the results, the platform-keyed map, and the trace message. -/
def searchProductsNode (env : WfEnv) (s : WfState) : Except WfState WfState :=
  let products := searchProductsAcrossPlatforms s.query env.searchUp
  if products.length = 0 then
    Except.error { s with error := some "Search failed: Error: No products found for the given query" }
  else
    let tr := "Found " ++ toString products.length ++ " products across platforms"
    Except.ok { s with searchResults := products, scrapedData := buildScrapedData products, messages := s.messages ++ [tr] }

/-- Trace message of a successful market analysis: reading `bestDeal`
off a raw result that lacks it (or carries `null`) throws. -/
def analyzeMsg : AnalyzeResult → Option String
  | AnalyzeResult.fallback f =>
    some ("Market analysis completed. Best deal: " ++ jnumDisplay f.bestDealPrice ++
      " on " ++ f.bestDealPlatform)
  | AnalyzeResult.raw j =>
    match getField j "bestDeal" with
    | none => none
    | some Json.null => none
    | some bd =>
      some ("Market analysis completed. Best deal: " ++ jsDisplay (getField bd "price") ++
        " on " ++ jsDisplay (getField bd "platform"))

/-- `analyzeMarketNode` (part_002 lines 171-187): delegate to
`analyzeMarket`; any throw (empty input, or the message construction on
a malformed raw result) records `state.error` and halts the pipeline. -/
def analyzeMarketNode (env : WfEnv) (s : WfState) : Except WfState WfState :=
  match analyzeMarket s.searchResults env.analyzeUp with
  | Except.error e =>
    Except.error { s with error := some ("Market analysis failed: Error: " ++ e) }
  | Except.ok a =>
    match analyzeMsg a with
    | none => Except.error { s with error := some "Market analysis failed: TypeError" }
    | some m =>
      Except.ok { s with marketAnalysis := some a, messages := s.messages ++ [m] }

/-- Confidence display of a prediction result. -/
def predictConfidenceDisplay : PredictResult → String
  | PredictResult.fallback f => toString f.confidence
  | PredictResult.raw j => jsDisplay (getField j "confidence")

/-- `predictTrendsNode` (part_002 lines 189-204). -/
def predictTrendsNode (env : WfEnv) (s : WfState) : Except WfState WfState :=
  let p := predictPriceTrends s.searchResults env.predictUp
  let tr := "Price prediction completed. Confidence: " ++ predictConfidenceDisplay p ++ "%"
  Except.ok { s with pricePredicition := some p, messages := s.messages ++ [tr] }

/-- Does the analysis recommend `buy_now`? -/
def maActionIsBuyNow : AnalyzeResult → Bool
  | AnalyzeResult.fallback f => decide (f.recommendedAction = "buy_now")
  | AnalyzeResult.raw j =>
    match getField j "recommendedAction" with
    | some (Json.str s) => decide (s = "buy_now")
    | _ => false

/-- Is the analysis confidence above the bound (`undefined` compares
false)? -/
def maConfidenceGT (a : AnalyzeResult) (k : Int) : Bool :=
  match a with
  | AnalyzeResult.fallback f => decide ((k : Rat) < (f.confidence : Rat))
  | AnalyzeResult.raw j =>
    match getField j "confidence" with
    | some (Json.num n) => decide (k < n)
    | _ => false

/-- Is the market trend `falling`? -/
def maTrendIsFalling : AnalyzeResult → Bool
  | AnalyzeResult.fallback f => decide (f.marketTrend = "falling")
  | AnalyzeResult.raw j =>
    match getField j "marketTrend" with
    | some (Json.str s) => decide (s = "falling")
    | _ => false

/-- Is the prediction confidence above the bound? -/
def predConfidenceGT (p : PredictResult) (k : Int) : Bool :=
  match p with
  | PredictResult.fallback f => decide ((k : Rat) < (f.confidence : Rat))
  | PredictResult.raw j =>
    match getField j "confidence" with
    | some (Json.num n) => decide (k < n)
    | _ => false

/-- The `bestDeal` of an analysis, when reading it would not throw. -/
def maBestDeal : AnalyzeResult → Option (String × String)
  | AnalyzeResult.fallback f => some (f.bestDealPlatform, jnumDisplay f.bestDealPrice)
  | AnalyzeResult.raw j =>
    match getField j "bestDeal" with
    | none => none
    | some Json.null => none
    | some bd => some (jsDisplay (getField bd "platform"), jsDisplay (getField bd "price"))

/-- The `nextWeekRange` bounds of a prediction, when reading them would
not throw.  The fallback prediction carries `nextMonthRange` only, so
reading `nextWeekRange` off it throws, as it does off a raw result
lacking the field. -/
def predNextWeekRange : PredictResult → Option (String × String)
  | PredictResult.fallback _ => none
  | PredictResult.raw j =>
    match getField j "nextWeekRange" with
    | none => none
    | some Json.null => none
    | some r => some (jsDisplay (getField r "min"), jsDisplay (getField r "max"))

/-- `createIntelligentRecommendations` (part_002 lines 228-297), with
the decision conditions and the throwing member accesses modelled and
the result object condensed to its primary action and urgency (the
reasoning and alternative-action string lists are elided; no theorem
reads them). -/
def createIntelligentRecommendations (ma : Option AnalyzeResult)
    (pr : Option PredictResult) : Except Unit (Json × String) :=
  match ma with
  | none => Except.error ()
  | some a =>
    if maActionIsBuyNow a && maConfidenceGT a 70 then
      match maBestDeal a with
      | none => Except.error ()
      | some (platform, price) =>
        let pa := "Buy now from " ++ platform ++ " at " ++ price
        Except.ok (Json.obj [("primaryAction", Json.str pa),
          ("urgency", Json.str "high")], pa)
    else
      match pr with
      | none => Except.error ()
      | some p =>
        if maTrendIsFalling a || predConfidenceGT p 80 then
          match predNextWeekRange p with
          | none => Except.error ()
          | some _ =>
            let pa := "Wait for better prices"
            Except.ok (Json.obj [("primaryAction", Json.str pa),
              ("urgency", Json.str "low")], pa)
        else
          let pa := "Monitor prices closely"
          Except.ok (Json.obj [("primaryAction", Json.str pa),
            ("urgency", Json.str "medium")], pa)

/-- `generateRecommendationsNode` (part_002 lines 206-226). -/
def generateRecommendationsNode (_env : WfEnv) (s : WfState) : Except WfState WfState :=
  match createIntelligentRecommendations s.marketAnalysis s.pricePredicition with
  | Except.error _ =>
    Except.error { s with error := some "Recommendation generation failed: TypeError" }
  | Except.ok (r, pa) =>
    Except.ok { s with recommendations := some r, messages := s.messages ++ ["Recommendations generated: " ++ pa] }

/-- Stage dispatch. -/
def runStage (env : WfEnv) : StageName → WfState → Except WfState WfState
  | StageName.checkUserLimits => checkUserLimitsNode env
  | StageName.searchProducts => searchProductsNode env
  | StageName.analyzeMarket => analyzeMarketNode env
  | StageName.predictTrends => predictTrendsNode env
  | StageName.generateRecommendations => generateRecommendationsNode env

/-- Run the stages in order, halting at the first throw; returns the
invoked stages and the final state. -/
def runPipeline (env : WfEnv) : List StageName → WfState → List StageName × WfState
  | [], s => ([], s)
  | st :: rest, s =>
    match runStage env st s with
    | Except.ok s1 =>
      let r := runPipeline env rest s1
      (st :: r.1, r.2)
    | Except.error s1 => ([st], s1)

/-- `executeWorkflow(query, userId)`: the full pipeline from the initial
state. -/
def executeWorkflow (env : WfEnv) (query userId : String) : List StageName × WfState :=
  runPipeline env pipelineStages (initWfState query userId)

/-- One step of the serialized check-then-record protocol keeps the
minute counter at or below the ceiling. -/
theorem canThenRecord_requests_le (s : RateLimiterState) (now : JsDate)
    (h : s.requests ≤ requestsPerMinute) :
    (canThenRecord s now).requests ≤ requestsPerMinute := by
  unfold canThenRecord canMakeRequest recordRequest
  simp only [requestsPerMinute, requestsPerDay] at *
  split <;> split <;> split <;> simp_all <;> omega

/-- C1: a serialized sequence of `canMakeRequest`-then-`recordRequest`
pairs (recording only when the preceding check allowed) never drives the
minute counter past the per-minute ceiling of 60, from any state already
within the ceiling — in particular along every prefix, since the initial
state is universally quantified; and once the counter has reached the
ceiling, `canMakeRequest` returns `false` for any call inside the current
minute window (less than 60000 ms since the window start). -/
theorem quota_minute_ceiling (s : RateLimiterState) (times : List JsDate)
    (hinv : s.requests ≤ requestsPerMinute) :
    (runCalls s times).requests ≤ requestsPerMinute ∧
      (∀ s' : RateLimiterState, ∀ now : JsDate,
        s'.requests = requestsPerMinute →
        now.epochMs - s'.lastReset.epochMs < 60000 →
        (canMakeRequest s' now).1 = false) := by
  constructor
  · induction times generalizing s with
    | nil => exact hinv
    | cons t ts ih =>
      exact ih (canThenRecord s t) (canThenRecord_requests_le s t hinv)
  · intro s' now hfull hwin
    unfold canMakeRequest
    dsimp only
    have hnr : ¬ (60000 ≤ now.epochMs - s'.lastReset.epochMs) := by omega
    rw [if_neg hnr]
    split <;> simp [hfull, requestsPerMinute]

/-- Witness for `quota_minute_ceiling`: 61 serialized pairs at one
instant never push the counter past 60, and at the full counter the check
denies. -/
theorem quota_minute_ceiling_witness :
    (runCalls (rateLimiterStart ⟨1705276800000, 2024, 0, 15⟩)
        (List.replicate 61 ⟨1705276800500, 2024, 0, 15⟩)).requests ≤ requestsPerMinute ∧
      (∀ s' : RateLimiterState, ∀ now : JsDate,
        s'.requests = requestsPerMinute →
        now.epochMs - s'.lastReset.epochMs < 60000 →
        (canMakeRequest s' now).1 = false) :=
  quota_minute_ceiling (rateLimiterStart ⟨1705276800000, 2024, 0, 15⟩)
    (List.replicate 61 ⟨1705276800500, 2024, 0, 15⟩) (by decide)

/-- Run of the retry loop when every attempt fails: after `k` further
attempts the loop exhausts, reporting the configured attempt count and
the error of the last attempt. -/
theorem msrLoop_allFail (oracle : Nat → Except String String) (errs : Nat → String)
    (maxRetries : Nat) (hfail : ∀ i, oracle i = Except.error (errs i)) :
    ∀ k attempt, ∀ lastError : Option String, attempt + k = maxRetries + 1 → 1 ≤ attempt →
      msrLoop oracle maxRetries attempt lastError =
        (Except.error (msrFailMsg maxRetries
          (match k with
           | 0 => lastError
           | _ + 1 => some (errs maxRetries))), maxRetries) := by
  intro k
  induction k with
  | zero =>
    intro attempt lastError hsum h1
    unfold msrLoop
    rw [dif_pos (by omega)]
    have hm : attempt - 1 = maxRetries := by omega
    rw [hm]
  | succ k ih =>
    intro attempt lastError hsum h1
    unfold msrLoop
    rw [dif_neg (by omega), hfail attempt]
    dsimp only
    rw [ih (attempt + 1) (some (errs attempt)) (by omega) (by omega)]
    cases k with
    | zero =>
      have : attempt = maxRetries := by omega
      simp [this]
    | succ k => rfl

/-- The retry loop never performs more than `maxRetries` attempts. -/
theorem msrLoop_attempts_le (oracle : Nat → Except String String) (maxRetries : Nat) :
    ∀ k attempt, ∀ lastError : Option String, attempt + k = maxRetries + 1 → 1 ≤ attempt →
      (msrLoop oracle maxRetries attempt lastError).2 ≤ maxRetries := by
  intro k
  induction k with
  | zero =>
    intro attempt lastError hsum h1
    unfold msrLoop
    rw [dif_pos (by omega)]
    simp only
    omega
  | succ k ih =>
    intro attempt lastError hsum h1
    unfold msrLoop
    rw [dif_neg (by omega)]
    cases h : oracle attempt with
    | ok text => simp only; omega
    | error e => exact ih (attempt + 1) (some e) (by omega) (by omega)

/-- C5: when every upstream attempt fails, `makeStreamingRequest`
performs exactly `maxRetries` attempts (default 3) and fails with the
exhaustion error that wraps the last underlying error and reports the
attempt count — and no run of the loop, whatever the oracle, ever
performs more than `maxRetries` attempts. -/
theorem retry_exhaustion (maxRetries : Nat) (h1 : 1 ≤ maxRetries)
    (oracle : Nat → Except String String) (errs : Nat → String)
    (hfail : ∀ i, oracle i = Except.error (errs i)) :
    makeStreamingRequest oracle maxRetries =
      (Except.error ("Gemini streaming request failed after " ++ toString maxRetries ++
        " attempts: " ++ errs maxRetries), maxRetries) ∧
      (∀ o2 : Nat → Except String String, (makeStreamingRequest o2 maxRetries).2 ≤ maxRetries) := by
  constructor
  · unfold makeStreamingRequest
    rw [msrLoop_allFail oracle errs maxRetries hfail maxRetries 1 none (by omega) (by omega)]
    cases maxRetries with
    | zero => omega
    | succ m => rfl
  · intro o2
    exact msrLoop_attempts_le o2 maxRetries maxRetries 1 none (by omega) (by omega)

/-- Witness for `retry_exhaustion` at the default `maxRetries = 3` and an
oracle that always fails with "boom". -/
theorem retry_exhaustion_witness :
    makeStreamingRequest (fun _ => Except.error "boom") 3 =
      (Except.error ("Gemini streaming request failed after " ++ toString 3 ++
        " attempts: " ++ "boom"), 3) ∧
      (∀ o2 : Nat → Except String String, (makeStreamingRequest o2 3).2 ≤ 3) :=
  retry_exhaustion 3 (by omega) (fun _ => Except.error "boom") (fun _ => "boom")
    (fun _ => rfl)

/-- Counterexample to C7: `canMakeRequest` compares only `getDate()`
(day of month).  From a day-window start of 2024-01-15 a call on
2024-02-15 — a different calendar day — does not reset the day counter,
because both dates have day-of-month 15. -/
theorem quota_day_reset_counterexample :
    ((2024 : Int), (1 : Nat), (15 : Nat)) ≠ ((2024 : Int), (0 : Nat), (15 : Nat)) ∧
      (canMakeRequest
        { requests := 0, dailyRequests := 5,
          lastReset := ⟨1705276800000, 2024, 0, 15⟩,
          dailyReset := ⟨1705276800000, 2024, 0, 15⟩ }
        ⟨1707955200000, 2024, 1, 15⟩).2.dailyRequests = 5 := by
  decide

/-- C7 (amended): the day counter resets to 0 exactly when the
day-of-month (`getDate`) of the current time differs from that of the
stored day-window start — a calendar-day change that keeps the
day-of-month (same date in a later month) does not reset.  Crossing a
boundary that changes the day-of-month resets exactly once: the window
start moves to `now`, and a second check on the same day-of-month leaves
the day counter and window start untouched. -/
theorem quota_day_reset (s : RateLimiterState) (now now2 : JsDate)
    (hne : now.day ≠ s.dailyReset.day) (hsame : now2.day = now.day) :
    (canMakeRequest s now).2.dailyRequests = 0 ∧
      (canMakeRequest s now).2.dailyReset = now ∧
      (canMakeRequest (canMakeRequest s now).2 now2).2.dailyRequests = 0 ∧
      (canMakeRequest (canMakeRequest s now).2 now2).2.dailyReset = now ∧
      (∀ s' : RateLimiterState, ∀ now' : JsDate, now'.day = s'.dailyReset.day →
        (canMakeRequest s' now').2.dailyRequests = s'.dailyRequests ∧
          (canMakeRequest s' now').2.dailyReset = s'.dailyReset) := by
  have base : ∀ s' : RateLimiterState, ∀ now' : JsDate,
      (canMakeRequest s' now').2 =
        (let s1 := if 60000 ≤ now'.epochMs - s'.lastReset.epochMs then
            { s' with requests := 0, lastReset := now' } else s'
         if now'.day ≠ s1.dailyReset.day then
            { s1 with dailyRequests := 0, dailyReset := now' } else s1) := by
    intro s' now'
    rfl
  constructor
  · rw [base]; split <;> simp_all
  constructor
  · rw [base]; split <;> simp_all
  constructor
  · rw [base (canMakeRequest s now).2 now2, base s now]
    split <;> split <;> simp_all
  constructor
  · rw [base (canMakeRequest s now).2 now2, base s now]
    split <;> split <;> simp_all
  · intro s' now' hsame'
    rw [base s' now']
    split <;> simp [hsame']

/-- Witness for `quota_day_reset`: crossing from 2024-01-15 to
2024-01-16 resets the day counter once; a later check on 2024-01-16
leaves it at 0 with the window start still at the crossing time. -/
theorem quota_day_reset_witness :
    (canMakeRequest
      { requests := 2, dailyRequests := 7,
        lastReset := ⟨1705276800000, 2024, 0, 15⟩,
        dailyReset := ⟨1705276800000, 2024, 0, 15⟩ }
      ⟨1705363200000, 2024, 0, 16⟩).2.dailyRequests = 0 ∧
      (canMakeRequest
        { requests := 2, dailyRequests := 7,
          lastReset := ⟨1705276800000, 2024, 0, 15⟩,
          dailyReset := ⟨1705276800000, 2024, 0, 15⟩ }
        ⟨1705363200000, 2024, 0, 16⟩).2.dailyReset = ⟨1705363200000, 2024, 0, 16⟩ := by
  have h := quota_day_reset
    { requests := 2, dailyRequests := 7,
      lastReset := ⟨1705276800000, 2024, 0, 15⟩,
      dailyReset := ⟨1705276800000, 2024, 0, 15⟩ }
    ⟨1705363200000, 2024, 0, 16⟩ ⟨1705405500000, 2024, 0, 16⟩
    (by decide) (by decide)
  exact ⟨h.1, h.2.1⟩

/-- C8: under the validation-layer ceiling of 3, a user with
`searchCount = 3` whose stored reset time lies strictly in the future is
denied with exactly that stored reset time and left unchanged; the same
user with the reset time strictly in the past is first reset
(`searchCount := 0`, `searchLimitResetsAt` cleared) and then allowed. -/
theorem user_gate_scenario (u : UserRec) (r now : JsDate)
    (hc : u.searchCount = 3) (hr : u.searchLimitResetsAt = some r) :
    (now.epochMs < r.epochMs →
      checkSearchLimit (some u) now = (GateResult.denyLimit (some r), some u)) ∧
      (r.epochMs < now.epochMs →
        checkSearchLimit (some u) now =
          (GateResult.allow, some { u with searchCount := 0, searchLimitResetsAt := none })) := by
  constructor
  · intro hfut
    unfold checkSearchLimit
    dsimp only
    rw [hr]
    dsimp only
    rw [if_neg (show ¬ r.epochMs < now.epochMs by omega)]
    rw [if_pos (show SEARCH_LIMIT ≤ u.searchCount by rw [hc]; decide)]
    rw [hr]
  · intro hpast
    unfold checkSearchLimit
    dsimp only
    rw [hr]
    dsimp only
    rw [if_pos (show r.epochMs < now.epochMs from hpast)]
    rw [if_neg (by decide)]

/-- Witness for `user_gate_scenario`: at noon 2024-01-15, a reset time
one hour ahead denies with that time; a reset time one hour earlier
resets and allows. -/
theorem user_gate_scenario_witness :
    checkSearchLimit (some ⟨3, some ⟨1705323600000, 2024, 0, 15⟩⟩) ⟨1705320000000, 2024, 0, 15⟩ =
      (GateResult.denyLimit (some ⟨1705323600000, 2024, 0, 15⟩),
        some ⟨3, some ⟨1705323600000, 2024, 0, 15⟩⟩) ∧
      checkSearchLimit (some ⟨3, some ⟨1705316400000, 2024, 0, 15⟩⟩) ⟨1705320000000, 2024, 0, 15⟩ =
        (GateResult.allow, some ⟨0, none⟩) :=
  ⟨(user_gate_scenario ⟨3, some ⟨1705323600000, 2024, 0, 15⟩⟩ ⟨1705323600000, 2024, 0, 15⟩
      ⟨1705320000000, 2024, 0, 15⟩ rfl rfl).1 (by decide),
    (user_gate_scenario ⟨3, some ⟨1705316400000, 2024, 0, 15⟩⟩ ⟨1705316400000, 2024, 0, 15⟩
      ⟨1705320000000, 2024, 0, 15⟩ rfl rfl).2 (by decide)⟩

/-- C9: the per-user search-count increment lives in the calling layer
and runs only after the whole workflow has succeeded — a cache hit
returns early with the user untouched, a workflow abort propagates the
error before the increment line, and only the success path increments;
the increment itself adds one to `searchCount` and sets
`searchLimitResetsAt` to now plus seven days exactly when the count
transitions from 0 to 1. -/
theorem increment_after_success (c : Option (List (String × Int)))
    (w : Except String (List (String × Int))) (user : Option UserRec)
    (u : UserRec) (now : JsDate) (x : List (String × Int)) (hc : c.isSome) :
    searchAndAnalyze c w user now = Except.ok (SAOutcome.cachedHit, user) ∧
      (∀ e, searchAndAnalyze none (Except.error e) user now = Except.error e) ∧
      searchAndAnalyze none (Except.ok x) user now =
        Except.ok (SAOutcome.completed, incrementUserSearchCount user now) ∧
      incrementUserSearchCount (some u) now =
        some (if u.searchCount = 0
              then { searchCount := 1, searchLimitResetsAt := some (addDays now 7) }
              else { u with searchCount := u.searchCount + 1 }) := by
  refine ⟨?_, fun e => rfl, rfl, ?_⟩
  · match c with
    | some v => rfl
    | none => simp at hc
  · unfold incrementUserSearchCount
    dsimp only
    split
    · rename_i h
      simp [h]
    · rename_i h
      simp [h]

/-- Witness for `increment_after_success` at a cached hit, an aborting
workflow, and a first-ever search by a fresh user. -/
theorem increment_after_success_witness :
    searchAndAnalyze (some []) (Except.ok []) (some ⟨0, none⟩) ⟨1705320000000, 2024, 0, 15⟩ =
      Except.ok (SAOutcome.cachedHit, some ⟨0, none⟩) ∧
      (∀ e, searchAndAnalyze none (Except.error e) (some ⟨0, none⟩) ⟨1705320000000, 2024, 0, 15⟩ =
        Except.error e) ∧
      searchAndAnalyze none (Except.ok []) (some ⟨0, none⟩) ⟨1705320000000, 2024, 0, 15⟩ =
        Except.ok (SAOutcome.completed,
          incrementUserSearchCount (some ⟨0, none⟩) ⟨1705320000000, 2024, 0, 15⟩) ∧
      incrementUserSearchCount (some ⟨0, none⟩) ⟨1705320000000, 2024, 0, 15⟩ =
        some (if (0 : Nat) = 0
              then { searchCount := 1,
                     searchLimitResetsAt := some (addDays ⟨1705320000000, 2024, 0, 15⟩ 7) }
              else { searchCount := 0 + 1, searchLimitResetsAt := none }) :=
  increment_after_success (some []) (Except.ok []) (some ⟨0, none⟩) ⟨0, none⟩
    ⟨1705320000000, 2024, 0, 15⟩ [] rfl

/-- C10: a `makeGeminiRequest` invocation that passes the shared quota
gate increments the minute and day counters by exactly one relative to
the window-rolled state, independently of the upstream attempt outcomes —
so the increment happens before the upstream request, the internal
retries consume no additional quota, and a call whose attempts all fail
still consumes exactly one unit of each budget; it issues at most
`maxRetries = 3` upstream attempts. -/
theorem quota_consumed_once (q : RateLimiterState) (now : JsDate)
    (oracle : Nat → Except String String) (hok : (canMakeRequest q now).1 = true) :
    (makeGeminiRequest q now oracle).quota.requests = (canMakeRequest q now).2.requests + 1 ∧
      (makeGeminiRequest q now oracle).quota.dailyRequests =
        (canMakeRequest q now).2.dailyRequests + 1 ∧
      (makeGeminiRequest q now oracle).attemptsUsed ≤ geminiMaxRetries ∧
      (∀ o2 : Nat → Except String String,
        (makeGeminiRequest q now o2).quota = (makeGeminiRequest q now oracle).quota) := by
  have hsplit : canMakeRequest q now = (true, (canMakeRequest q now).2) := by
    rw [← hok]
  have hrun : ∀ o : Nat → Except String String,
      makeGeminiRequest q now o =
        { result := (makeStreamingRequest o).1,
          quota := recordRequest (canMakeRequest q now).2,
          attemptsUsed := (makeStreamingRequest o).2 } := by
    intro o
    unfold makeGeminiRequest
    rw [hsplit]
    rfl
  refine ⟨?_, ?_, ?_, ?_⟩
  · rw [hrun oracle]; rfl
  · rw [hrun oracle]; rfl
  · rw [hrun oracle]
    exact msrLoop_attempts_le oracle geminiMaxRetries geminiMaxRetries 1 none (by decide) (by decide)
  · intro o2
    rw [hrun oracle, hrun o2]

/-- Witness for `quota_consumed_once`: a fresh limiter passes the gate
and one call with an always-failing upstream still consumes exactly one
unit of each budget. -/
theorem quota_consumed_once_witness :
    (makeGeminiRequest (rateLimiterStart ⟨1705276800000, 2024, 0, 15⟩)
        ⟨1705276800500, 2024, 0, 15⟩ (fun _ => Except.error "down")).quota.requests =
      (canMakeRequest (rateLimiterStart ⟨1705276800000, 2024, 0, 15⟩)
        ⟨1705276800500, 2024, 0, 15⟩).2.requests + 1 ∧
      (makeGeminiRequest (rateLimiterStart ⟨1705276800000, 2024, 0, 15⟩)
          ⟨1705276800500, 2024, 0, 15⟩ (fun _ => Except.error "down")).quota.dailyRequests =
        (canMakeRequest (rateLimiterStart ⟨1705276800000, 2024, 0, 15⟩)
          ⟨1705276800500, 2024, 0, 15⟩).2.dailyRequests + 1 ∧
      (makeGeminiRequest (rateLimiterStart ⟨1705276800000, 2024, 0, 15⟩)
          ⟨1705276800500, 2024, 0, 15⟩ (fun _ => Except.error "down")).attemptsUsed ≤
        geminiMaxRetries ∧
      (∀ o2 : Nat → Except String String,
        (makeGeminiRequest (rateLimiterStart ⟨1705276800000, 2024, 0, 15⟩)
            ⟨1705276800500, 2024, 0, 15⟩ o2).quota =
          (makeGeminiRequest (rateLimiterStart ⟨1705276800000, 2024, 0, 15⟩)
            ⟨1705276800500, 2024, 0, 15⟩ (fun _ => Except.error "down")).quota) :=
  quota_consumed_once (rateLimiterStart ⟨1705276800000, 2024, 0, 15⟩)
    ⟨1705276800500, 2024, 0, 15⟩ (fun _ => Except.error "down") (by decide)

/-- Digit characters are recognised as digits. -/
theorem digitChar_isDigit : ∀ k, k < 10 → isDigitCh (digitChar k) = true := by decide

/-- Digit characters decode back to their value. -/
theorem digitChar_val : ∀ k, k < 10 → (digitChar k).toNat - 48 = k := by decide

/-- Decimal serialization starts with a digit. -/
theorem natChars_head (n : Nat) : ∃ d t, natChars n = d :: t ∧ isDigitCh d = true := by
  induction n using Nat.strong_induction_on with
  | _ n ih =>
    unfold natChars
    split
    · rename_i h
      exact ⟨digitChar n, [], rfl, digitChar_isDigit n (by omega)⟩
    · rename_i h
      obtain ⟨d, t, heq, hd⟩ := ih (n / 10) (Nat.div_lt_self (by omega) (by omega))
      exact ⟨d, t ++ [digitChar (n % 10)], by rw [heq]; rfl, hd⟩

/-- Digit accumulation consumes exactly a number's serialized digits. -/
theorem parseNatAcc_append (n : Nat) : ∀ acc : Nat, ∀ rest : List Char,
    parseNatAcc acc (natChars n ++ rest) =
      parseNatAcc (acc * 10 ^ (natChars n).length + n) rest := by
  induction n using Nat.strong_induction_on with
  | _ n ih =>
    intro acc rest
    unfold natChars
    split
    · rename_i h
      show parseNatAcc acc (digitChar n :: rest) = _
      simp only [parseNatAcc]
      rw [if_pos (digitChar_isDigit n (by omega)), digitChar_val n (by omega)]
      simp
    · rename_i h
      rw [List.append_assoc]
      rw [ih (n / 10) (Nat.div_lt_self (by omega) (by omega)) acc
        ([digitChar (n % 10)] ++ rest)]
      show parseNatAcc _ (digitChar (n % 10) :: rest) = _
      simp only [parseNatAcc]
      rw [if_pos (digitChar_isDigit (n % 10) (by omega)), digitChar_val (n % 10) (by omega)]
      have hacc : (acc * 10 ^ (natChars (n / 10)).length + n / 10) * 10 + n % 10 =
          acc * 10 ^ (natChars (n / 10) ++ [digitChar (n % 10)]).length + n := by
        rw [List.length_append, List.length_singleton, pow_succ]
        have hx : (acc * 10 ^ (natChars (n / 10)).length + n / 10) * 10 + n % 10 =
            acc * (10 ^ (natChars (n / 10)).length * 10) + (n / 10 * 10 + n % 10) := by ring
        rw [hx]
        congr 1
        omega
      rw [hacc]

/-- Digit accumulation stops at a delimiter. -/
theorem parseNatAcc_done (acc : Nat) (rest : List Char) (h : delimOk rest = true) :
    parseNatAcc acc rest = (acc, rest) := by
  cases rest with
  | nil => rfl
  | cons c cs =>
    simp only [delimOk, Bool.not_eq_true'] at h
    simp [parseNatAcc, h]

/-- String-body parsing inverts escaping up to the closing quote. -/
theorem parseStrBody_escape (s : List Char) : ∀ rest : List Char,
    parseStrBody (escapeChars s ++ (quoteChar :: rest)) = some (s, rest) := by
  induction s with
  | nil =>
    intro rest
    show parseStrBody (quoteChar :: rest) = _
    rw [parseStrBody.eq_def]
    simp
  | cons c cs ih =>
    intro rest
    by_cases hc : c = quoteChar ∨ c = backslashChar
    · show parseStrBody ((if c = quoteChar ∨ c = backslashChar then
          backslashChar :: c :: escapeChars cs else c :: escapeChars cs) ++ _) = _
      rw [if_pos hc]
      show parseStrBody (backslashChar :: (c :: (escapeChars cs ++ (quoteChar :: rest)))) = _
      rw [parseStrBody.eq_def]
      simp [hc, ih rest, show ¬ (backslashChar = quoteChar) by decide]
    · obtain ⟨h1, h2⟩ := not_or.mp hc
      show parseStrBody ((if c = quoteChar ∨ c = backslashChar then
          backslashChar :: c :: escapeChars cs else c :: escapeChars cs) ++ _) = _
      rw [if_neg hc]
      show parseStrBody (c :: (escapeChars cs ++ (quoteChar :: rest))) = _
      rw [parseStrBody.eq_def]
      simp [h1, h2, ih rest]

/-- Every serialized value starts with an opening character. -/
theorem emitVal_head (j : Json) : ∃ d t, emitVal j = d :: t ∧ goodStart d = true := by
  cases j with
  | null => exact ⟨'n', _, rfl, by decide⟩
  | bool b =>
    cases b with
    | true => exact ⟨'t', _, rfl, by decide⟩
    | false => exact ⟨'f', _, rfl, by decide⟩
  | num n =>
    show ∃ d t, emitInt n = d :: t ∧ goodStart d = true
    unfold emitInt
    split
    · exact ⟨'-', _, rfl, by decide⟩
    · obtain ⟨d, t, heq, hd⟩ := natChars_head n.toNat
      exact ⟨d, t, heq, by simp [goodStart, hd]⟩
  | str s => exact ⟨quoteChar, _, rfl, by decide⟩
  | arr elems => exact ⟨'[', _, rfl, by decide⟩
  | obj fields => exact ⟨lbraceChar, _, rfl, by decide⟩

/-- Opening characters are not delimiters. -/
theorem goodStart_ne (d : Char) (h : goodStart d = true) :
    d ≠ ']' ∧ d ≠ ',' ∧ d ≠ rbraceChar := by
  refine ⟨?_, ?_, ?_⟩ <;> intro he <;> rw [he] at h <;> revert h <;> decide

/-- The tail following an array element is delimiter-headed. -/
theorem delimOk_emitRest (xs : List Json) (rest : List Char) :
    delimOk (emitRest xs ++ (']' :: rest)) = true := by
  cases xs with
  | nil => rfl
  | cons x xs => rfl

/-- The tail following an object field is delimiter-headed. -/
theorem delimOk_emitFieldsRest (kvs : List (String × Json)) (rest : List Char) :
    delimOk (emitFieldsRest kvs ++ (rbraceChar :: rest)) = true := by
  cases kvs with
  | nil => rfl
  | cons kv kvs => rfl

/-- Every JSON value has positive structural weight. -/
theorem one_le_sizeJ (j : Json) : 1 ≤ sizeJ j := by
  cases j <;> simp only [sizeJ] <;> omega

/-- Digit characters are distinct from all dispatch characters of the
value parser. -/
theorem digit_not_special (c : Char) (h : isDigitCh c = true) :
    ¬ (c = '[') ∧ ¬ (c = lbraceChar) ∧ ¬ (c = quoteChar) ∧ ¬ (c = 'n') ∧
      ¬ (c = 't') ∧ ¬ (c = 'f') ∧ ¬ (c = '-') := by
  refine ⟨?_, ?_, ?_, ?_, ?_, ?_, ?_⟩ <;> intro he <;> rw [he] at h <;> revert h <;> decide

mutual

/-- Parsing inverts serialization: with fuel at least the value's
structural weight and a delimiter-headed remainder, `parseVal` consumes
exactly the serialized value. -/
theorem parseVal_emit (fuel : Nat) (j : Json) (rest : List Char)
    (hf : sizeJ j ≤ fuel) (hd : delimOk rest = true) :
    parseVal fuel (emitVal j ++ rest) = some (j, rest) := by
  obtain ⟨f, rfl⟩ : ∃ f, fuel = f + 1 := by
    have := one_le_sizeJ j
    cases fuel with
    | zero => omega
    | succ f => exact ⟨f, rfl⟩
  cases j with
  | null =>
    simp only [emitVal, List.cons_append]
    rw [parseVal.eq_def]
    simp [show ¬ ('n' = '[') by decide, show ¬ ('n' = lbraceChar) by decide,
      show ¬ ('n' = quoteChar) by decide]
  | bool b =>
    cases b with
    | true =>
      simp only [emitVal, List.cons_append]
      rw [parseVal.eq_def]
      simp [show ¬ ('t' = '[') by decide, show ¬ ('t' = lbraceChar) by decide,
        show ¬ ('t' = quoteChar) by decide, show ¬ ('t' = 'n') by decide]
    | false =>
      simp only [emitVal, List.cons_append]
      rw [parseVal.eq_def]
      simp [show ¬ ('f' = '[') by decide, show ¬ ('f' = lbraceChar) by decide,
        show ¬ ('f' = quoteChar) by decide, show ¬ ('f' = 'n') by decide,
        show ¬ ('f' = 't') by decide]
  | num n =>
    simp only [emitVal]
    show parseVal (f + 1) (emitInt n ++ rest) = some (Json.num n, rest)
    unfold emitInt
    split
    · rename_i hneg
      obtain ⟨d, t, heq, hdig⟩ := natChars_head n.natAbs
      have harg : parseNatAcc 0 (natChars n.natAbs ++ rest) = (n.natAbs, rest) := by
        rw [parseNatAcc_append, parseNatAcc_done _ _ hd]
        simp
      rw [heq] at harg
      rw [heq]
      simp only [List.cons_append] at harg ⊢
      rw [parseVal.eq_def]
      have hn : -|n| = n := by
        rw [abs_of_neg hneg]
        omega
      simp [show ¬ ('-' = '[') by decide, show ¬ ('-' = lbraceChar) by decide,
        show ¬ ('-' = quoteChar) by decide, show ¬ ('-' = 'n') by decide,
        show ¬ ('-' = 't') by decide, show ¬ ('-' = 'f') by decide,
        hdig, harg, hn]
    · rename_i hpos
      obtain ⟨d, t, heq, hdig⟩ := natChars_head n.toNat
      obtain ⟨g1, g2, g3, g4, g5, g6, g7⟩ := digit_not_special d hdig
      have harg : parseNatAcc 0 (natChars n.toNat ++ rest) = (n.toNat, rest) := by
        rw [parseNatAcc_append, parseNatAcc_done _ _ hd]
        simp
      rw [heq] at harg
      rw [heq]
      simp only [List.cons_append] at harg ⊢
      rw [parseVal.eq_def]
      have hn : ((n.toNat : Nat) : Int) = n := by omega
      simp [g1, g2, g3, g4, g5, g6, g7, hdig, harg, hn]
  | str s =>
    simp only [emitVal, List.cons_append, List.append_assoc, List.singleton_append]
    rw [parseVal.eq_def]
    simp [show ¬ (quoteChar = '[') by decide, show ¬ (quoteChar = lbraceChar) by decide,
      parseStrBody_escape s.data rest]
  | arr elems =>
    cases elems with
    | nil =>
      simp only [emitVal, emitElems, List.nil_append, List.cons_append,
        List.singleton_append]
      rw [parseVal.eq_def]
      simp
    | cons x xs =>
      have hfx : sizeJ x ≤ f := by
        simp only [sizeJ, sizeL] at hf
        omega
      have hfxs : sizeL xs + 1 ≤ f := by
        simp only [sizeJ, sizeL] at hf
        omega
      obtain ⟨d, t, heq, hg⟩ := emitVal_head x
      obtain ⟨hne1, hne2, hne3⟩ := goodStart_ne d hg
      have ihx := parseVal_emit f x (emitRest xs ++ (']' :: rest)) hfx
        (delimOk_emitRest xs rest)
      have harr := parseArrRest_emit f xs [x] rest hfxs
      rw [heq, List.cons_append] at ihx
      simp only [emitVal, emitElems, List.cons_append, List.append_assoc,
        List.singleton_append]
      rw [heq, List.cons_append]
      rw [parseVal.eq_def]
      simp [hne1, ihx, harr]
  | obj fields =>
    cases fields with
    | nil =>
      simp only [emitVal, emitFields, List.nil_append, List.cons_append,
        List.singleton_append]
      rw [parseVal.eq_def]
      simp [show ¬ (lbraceChar = '[') by decide]
    | cons kv kvs =>
      obtain ⟨k, v⟩ := kv
      have hfv : sizeJ v + 1 ≤ f := by
        simp only [sizeJ, sizeF] at hf
        omega
      have hfkvs : sizeF kvs + 1 ≤ f := by
        simp only [sizeJ, sizeF] at hf
        omega
      have ihf := parseField_emit f (k, v) (emitFieldsRest kvs ++ (rbraceChar :: rest))
        hfv (delimOk_emitFieldsRest kvs rest)
      have hobj := parseObjRest_emit f kvs [(k, v)] rest hfkvs
      simp only [emitField, List.cons_append, List.append_assoc, List.nil_append] at ihf
      simp only [emitVal, emitFields, emitField, List.cons_append, List.append_assoc,
        List.singleton_append]
      rw [parseVal.eq_def]
      simp [show ¬ (lbraceChar = '[') by decide, show ¬ (quoteChar = rbraceChar) by decide,
        ihf, hobj]
termination_by fuel

/-- Parsing inverts serialization for one object field. -/
theorem parseField_emit (fuel : Nat) (kv : String × Json) (rest : List Char)
    (hf : sizeJ kv.2 + 1 ≤ fuel) (hd : delimOk rest = true) :
    parseField fuel (emitField kv ++ rest) = some (kv, rest) := by
  obtain ⟨k, v⟩ := kv
  obtain ⟨f, rfl⟩ : ∃ f, fuel = f + 1 := by
    cases fuel with
    | zero => omega
    | succ f => exact ⟨f, rfl⟩
  have ihv := parseVal_emit f v rest (by simp at hf; omega) hd
  simp only [emitField, List.cons_append, List.append_assoc]
  rw [parseField.eq_def]
  simp only [List.cons_append, List.nil_append]
  simp [parseStrBody_escape k.data (':' :: (emitVal v ++ rest)), ihv]
termination_by fuel

/-- Parsing inverts serialization for an array continuation. -/
theorem parseArrRest_emit (fuel : Nat) (xs acc : List Json) (rest : List Char)
    (hf : sizeL xs + 1 ≤ fuel) :
    parseArrRest fuel acc (emitRest xs ++ (']' :: rest)) =
      some (Json.arr (acc ++ xs), rest) := by
  obtain ⟨g, rfl⟩ : ∃ g, fuel = g + 1 := by
    cases fuel with
    | zero => omega
    | succ g => exact ⟨g, rfl⟩
  cases xs with
  | nil =>
    simp only [emitRest, List.nil_append]
    rw [parseArrRest.eq_def]
    simp
  | cons x xs =>
    have hfx : sizeJ x ≤ g := by
      simp only [sizeL] at hf
      omega
    have hfxs : sizeL xs + 1 ≤ g := by
      simp only [sizeL] at hf
      omega
    have ihx := parseVal_emit g x (emitRest xs ++ (']' :: rest)) hfx
      (delimOk_emitRest xs rest)
    have ihrest := parseArrRest_emit g xs (acc ++ [x]) rest hfxs
    simp only [emitRest, List.cons_append, List.append_assoc]
    rw [parseArrRest.eq_def]
    simp [show ¬ (',' = ']') by decide, ihx, ihrest, List.append_assoc]
termination_by fuel

/-- Parsing inverts serialization for an object continuation. -/
theorem parseObjRest_emit (fuel : Nat) (kvs acc : List (String × Json))
    (rest : List Char) (hf : sizeF kvs + 1 ≤ fuel) :
    parseObjRest fuel acc (emitFieldsRest kvs ++ (rbraceChar :: rest)) =
      some (Json.obj (acc ++ kvs), rest) := by
  obtain ⟨g, rfl⟩ : ∃ g, fuel = g + 1 := by
    cases fuel with
    | zero => omega
    | succ g => exact ⟨g, rfl⟩
  cases kvs with
  | nil =>
    simp only [emitFieldsRest, List.nil_append]
    rw [parseObjRest.eq_def]
    simp
  | cons kv kvs =>
    obtain ⟨k, v⟩ := kv
    have hfv : sizeJ v + 1 ≤ g := by
      simp only [sizeF] at hf
      omega
    have hfkvs : sizeF kvs + 1 ≤ g := by
      simp only [sizeF] at hf
      omega
    have ihf := parseField_emit g (k, v) (emitFieldsRest kvs ++ (rbraceChar :: rest))
      hfv (delimOk_emitFieldsRest kvs rest)
    have ihrest := parseObjRest_emit g kvs (acc ++ [(k, v)]) rest hfkvs
    simp only [emitField, List.cons_append, List.append_assoc, List.nil_append] at ihf
    simp only [emitFieldsRest, emitField, List.cons_append, List.append_assoc]
    rw [parseObjRest.eq_def]
    simp [show ¬ (',' = rbraceChar) by decide, show ¬ (quoteChar = rbraceChar) by decide,
      ihf, ihrest, List.append_assoc]
termination_by fuel

end

mutual

/-- The structural weight of a value is at most twice its serialized
length (so length-derived parser fuel always suffices). -/
theorem sizeJ_le_emit (j : Json) : sizeJ j ≤ 2 * (emitVal j).length := by
  cases j with
  | null => simp [sizeJ, emitVal]
  | bool b => cases b <;> simp [sizeJ, emitVal]
  | num n =>
    simp only [sizeJ, emitVal]
    unfold emitInt
    split
    · simp
      omega
    · obtain ⟨d, t, heq, _⟩ := natChars_head n.toNat
      rw [heq]
      simp
      omega
  | str s =>
    simp only [sizeJ, emitVal]
    simp
    omega
  | arr elems =>
    cases elems with
    | nil => simp [sizeJ, sizeL, emitVal, emitElems]
    | cons x xs =>
      have hx := sizeJ_le_emit x
      have hr := sizeL_le_emitRest xs
      simp only [sizeJ, sizeL, emitVal, emitElems]
      simp only [List.length_cons, List.length_append]
      omega
  | obj fields =>
    cases fields with
    | nil => simp [sizeJ, sizeF, emitVal, emitFields]
    | cons kv kvs =>
      obtain ⟨k, v⟩ := kv
      have hv := sizeJ_le_emit v
      have hr := sizeF_le_emitFieldsRest kvs
      simp only [sizeJ, sizeF, emitVal, emitFields, emitField]
      simp only [List.length_cons, List.length_append]
      omega
termination_by sizeOf j

/-- Element-list weight against the comma-separated continuation. -/
theorem sizeL_le_emitRest (xs : List Json) : sizeL xs ≤ 2 * (emitRest xs).length := by
  cases xs with
  | nil => simp [sizeL, emitRest]
  | cons x xs =>
    have hx := sizeJ_le_emit x
    have hr := sizeL_le_emitRest xs
    simp only [sizeL, emitRest]
    simp only [List.length_cons, List.length_append]
    omega
termination_by sizeOf xs

/-- Field-list weight against the comma-separated continuation. -/
theorem sizeF_le_emitFieldsRest (kvs : List (String × Json)) :
    sizeF kvs ≤ 2 * (emitFieldsRest kvs).length := by
  cases kvs with
  | nil => simp [sizeF, emitFieldsRest]
  | cons kv kvs =>
    obtain ⟨k, v⟩ := kv
    have hv := sizeJ_le_emit v
    have hr := sizeF_le_emitFieldsRest kvs
    simp only [sizeF, emitFieldsRest, emitField]
    simp only [List.length_cons, List.length_append]
    omega
termination_by sizeOf kvs

end

/-- The embedded `JSON.parse` recovers any serialized value. -/
theorem parseJson_emit (j : Json) : parseJson (emitVal j) = some j := by
  unfold parseJson
  have hp := parseVal_emit (2 * (emitVal j).length + 2) j []
    (by have := sizeJ_le_emit j; omega) rfl
  rw [List.append_nil] at hp
  rw [hp]

/-- Dropping over a wholly-satisfying segment continues into the rest. -/
theorem dropWhile_append_all (p : Char → Bool) (l1 l2 : List Char)
    (h : ∀ a ∈ l1, p a = true) :
    List.dropWhile p (l1 ++ l2) = List.dropWhile p l2 := by
  induction l1 with
  | nil => simp
  | cons a l ih =>
    rw [List.cons_append, List.dropWhile_cons, if_pos (h a (List.mem_cons_self a l))]
    exact ih (fun b hb => h b (List.mem_cons_of_mem a hb))

/-- Behaviour of the greedy-outer bracket match on text of the shape
`noise [ … body … ] trailing` with no bracket in the noise or trailing
segments: the span runs from the first opener to the last closer. -/
theorem extractSpan_parts (noisePre mid post : List Char)
    (h1 : ∀ a ∈ noisePre, (a != '[') = true)
    (h2 : ∀ a ∈ post, (a != ']') = true) :
    extractSpan '[' ']' (noisePre ++ ('[' :: (mid ++ (']' :: post)))) =
      some ('[' :: (mid ++ [']'])) := by
  have hrev : ('[' :: (mid ++ (']' :: post))).reverse =
      post.reverse ++ (']' :: (mid.reverse ++ ['['])) := by
    simp [List.reverse_cons, List.reverse_append]
  have hs1 : List.dropWhile (fun c => c != '[')
      (noisePre ++ ('[' :: (mid ++ (']' :: post)))) =
      '[' :: (mid ++ (']' :: post)) := by
    rw [dropWhile_append_all _ _ _ h1, List.dropWhile_cons,
      if_neg (show ¬ (('[' != '[') = true) by decide)]
  have hs2 : ((('[' :: (mid ++ (']' :: post))).reverse.dropWhile
      (fun c => c != ']')).reverse) = '[' :: (mid ++ [']']) := by
    rw [hrev, dropWhile_append_all _ _ _ (fun a ha => h2 a (List.mem_reverse.mp ha)),
      List.dropWhile_cons, if_neg (show ¬ ((']' != ']') = true) by decide)]
    simp [List.reverse_cons, List.reverse_append]
  unfold extractSpan
  simp only [hs1, hs2]
  rfl

/-- String concatenation concatenates the underlying character lists. -/
theorem strData_append (a b : String) : (a ++ b).data = a.data ++ b.data := rfl

/-- Counterexample to C6: at the well-formed JSON list `X = []`
(serialized `[]`), the greedy-outer extraction applied to
`noise [` + stringify(X) + `] trailing` matches the span `[[]]` and
deserializes it to the singleton list containing `X` — which differs
from `X`. -/
theorem parser_roundtrip_counterexample :
    extractJsonArray ("noise [" ++ Json.stringify (Json.arr []) ++ "] trailing") =
      some (Json.arr [Json.arr []]) ∧ Json.arr [Json.arr []] ≠ Json.arr [] := by
  constructor
  · rfl
  · intro h
    simp at h

/-- C6 (amended): for every well-formed JSON list `X`, applying the
greedy-outer array extraction to `noise [` + stringify(X) + `] trailing`
yields the singleton list wrapping `X` (deep-equal to `[X]`, not to `X`):
the bracket added by the template nests the serialized list one level
deeper, and the greedy match spans both bracket layers. -/
theorem parser_roundtrip (X : List Json) :
    extractJsonArray ("noise [" ++ Json.stringify (Json.arr X) ++ "] trailing") =
      some (Json.arr [Json.arr X]) := by
  unfold extractJsonArray
  have hdata : ("noise [" ++ Json.stringify (Json.arr X) ++ "] trailing").data =
      "noise ".data ++ ('[' :: (emitVal (Json.arr X) ++ (']' :: " trailing".data))) := by
    rw [strData_append, strData_append]
    have hm : (Json.stringify (Json.arr X)).data = emitVal (Json.arr X) := rfl
    have hn : "noise [".data = "noise ".data ++ ['['] := rfl
    have ht : "] trailing".data = ']' :: " trailing".data := rfl
    rw [hm, hn, ht]
    simp [List.append_assoc]
  rw [hdata]
  rw [extractSpan_parts "noise ".data (emitVal (Json.arr X)) " trailing".data
    (by decide) (by decide)]
  have hspan : '[' :: (emitVal (Json.arr X) ++ [']']) = emitVal (Json.arr [Json.arr X]) := by
    simp [emitVal, emitElems, emitRest]
  rw [hspan]
  show parseJson (emitVal (Json.arr [Json.arr X])) = some (Json.arr [Json.arr X])
  exact parseJson_emit (Json.arr [Json.arr X])

/-- Counterexample to C3: a successful upstream response whose bracket
span is the empty JSON array makes `searchProductsAcrossPlatforms`
return the empty list, so callers do not always receive a non-empty
list. -/
theorem search_nonempty_counterexample :
    searchProductsAcrossPlatforms "wireless mouse" (Except.ok "[]") = [] := rfl

/-- C3 (amended): whenever the upstream call fails, or the successful
response cannot be decoded as a JSON array (no bracket span, malformed
JSON, non-array payload, or an element on which the url-defaulting map
throws), `searchProductsAcrossPlatforms` returns exactly one
out-of-stock placeholder listing whose title echoes the query; when the
response does decode as a JSON array, the mapped elements are returned
as they are, so the result is empty exactly when that array is (see the
counterexample). -/
theorem search_fallback (query e text : String)
    (hfail : parseSearchText text = none) :
    searchProductsAcrossPlatforms query (Except.error e) = getFallbackResults query ∧
      searchProductsAcrossPlatforms query (Except.ok text) = getFallbackResults query ∧
      (getFallbackResults query).length = 1 ∧
      (∀ x ∈ getFallbackResults query,
        getField x "title" = some (Json.str (query ++ " - Product Not Found")) ∧
          getField x "availability" = some (Json.str "out_of_stock")) := by
  refine ⟨rfl, ?_, rfl, ?_⟩
  · unfold searchProductsAcrossPlatforms
    dsimp only
    rw [hfail]
  · intro x hx
    simp only [getFallbackResults, List.mem_singleton] at hx
    subst hx
    exact ⟨rfl, rfl⟩

/-- Witness for `search_fallback` at a failing upstream and at a
successful response containing no JSON. -/
theorem search_fallback_witness :
    searchProductsAcrossPlatforms "mouse" (Except.error "boom") =
        getFallbackResults "mouse" ∧
      searchProductsAcrossPlatforms "mouse" (Except.ok "no json here") =
        getFallbackResults "mouse" ∧
      (getFallbackResults "mouse").length = 1 ∧
      (∀ x ∈ getFallbackResults "mouse",
        getField x "title" = some (Json.str ("mouse" ++ " - Product Not Found")) ∧
          getField x "availability" = some (Json.str "out_of_stock")) :=
  search_fallback "mouse" "boom" "no json here" rfl

/-- C4: `analyzeMarket` throws the empty-input error exactly on an empty
listing list; on every non-empty input it never throws — an upstream
failure, a missing brace span, or malformed JSON all yield the fallback
analysis, whose average and min/max derive from the input listings'
(positive) prices and which recommends `monitor` with confidence 50. -/
theorem analyze_empty_input (products : List Json) (up : Except String String)
    (e text : String) (hne : products ≠ []) (hbad : parseObjectText text = none) :
    analyzeMarket [] up = Except.error "No products to analyze" ∧
      (∃ r, analyzeMarket products up = Except.ok r) ∧
      analyzeMarket products (Except.error e) =
        Except.ok (AnalyzeResult.fallback (getFallbackAnalysis products)) ∧
      analyzeMarket products (Except.ok text) =
        Except.ok (AnalyzeResult.fallback (getFallbackAnalysis products)) ∧
      (getFallbackAnalysis products).recommendedAction = "monitor" ∧
      (getFallbackAnalysis products).confidence = 50 ∧
      (getFallbackAnalysis products).averagePrice =
        (if (positivePrices products).length ≠ 0 then
          (positivePrices products).sum / ((positivePrices products).length : Rat)
        else 0) ∧
      (getFallbackAnalysis products).rangeMin = jsMinList (positivePrices products) ∧
      (getFallbackAnalysis products).rangeMax = jsMaxList (positivePrices products) := by
  have hl : ¬ (products.length = 0) := by
    intro h
    exact hne (List.length_eq_zero.mp h)
  refine ⟨rfl, ?_, ?_, ?_, rfl, rfl, rfl, rfl, rfl⟩
  · unfold analyzeMarket
    rw [if_neg hl]
    match up with
    | Except.error e2 => exact ⟨_, rfl⟩
    | Except.ok t =>
      dsimp only
      match h : parseObjectText t with
      | some j => exact ⟨_, rfl⟩
      | none => exact ⟨_, rfl⟩
  · unfold analyzeMarket
    rw [if_neg hl]
  · unfold analyzeMarket
    rw [if_neg hl]
    dsimp only
    rw [hbad]

/-- Witness for `analyze_empty_input` at the placeholder listing list, a
failing upstream, and a brace-free response text. -/
theorem analyze_empty_input_witness :
    analyzeMarket [] (Except.error "down") = Except.error "No products to analyze" ∧
      (∃ r, analyzeMarket (getFallbackResults "x") (Except.error "down") = Except.ok r) ∧
      analyzeMarket (getFallbackResults "x") (Except.error "down") =
        Except.ok (AnalyzeResult.fallback (getFallbackAnalysis (getFallbackResults "x"))) ∧
      analyzeMarket (getFallbackResults "x") (Except.ok "plain text") =
        Except.ok (AnalyzeResult.fallback (getFallbackAnalysis (getFallbackResults "x"))) ∧
      (getFallbackAnalysis (getFallbackResults "x")).recommendedAction = "monitor" ∧
      (getFallbackAnalysis (getFallbackResults "x")).confidence = 50 ∧
      (getFallbackAnalysis (getFallbackResults "x")).averagePrice =
        (if (positivePrices (getFallbackResults "x")).length ≠ 0 then
          (positivePrices (getFallbackResults "x")).sum /
            ((positivePrices (getFallbackResults "x")).length : Rat)
        else 0) ∧
      (getFallbackAnalysis (getFallbackResults "x")).rangeMin =
        jsMinList (positivePrices (getFallbackResults "x")) ∧
      (getFallbackAnalysis (getFallbackResults "x")).rangeMax =
        jsMaxList (positivePrices (getFallbackResults "x")) :=
  analyze_empty_input (getFallbackResults "x") (Except.error "down") "down" "plain text"
    (List.cons_ne_nil _ _) rfl

/-- A successful user-limit check only appends the trace message. -/
theorem checkUserLimits_ok_shape (env : WfEnv) (s s1 : WfState)
    (h : checkUserLimitsNode env s = Except.ok s1) :
    s1 = { s with messages := s.messages ++ ["User limits checked successfully"] } := by
  unfold checkUserLimitsNode at h
  cases henv : env.user with
  | none =>
    rw [henv] at h
    exact absurd h (by simp)
  | some u =>
    rw [henv] at h
    dsimp only at h
    split at h
    · exact absurd h (by simp)
    · injection h with h2
      exact h2.symm

/-- C2: in any workflow run that reaches SearchProducts (the user gate
passes) and in which the search stage yields an empty listing set, the
pipeline halts at SearchProducts: AnalyzeMarket is never invoked, no
market analysis is produced, and the final state's error field is set. -/
theorem workflow_halts_on_empty_search (env : WfEnv) (query userId : String)
    (s1 : WfState)
    (hgate : checkUserLimitsNode env (initWfState query userId) = Except.ok s1)
    (hempty : searchProductsAcrossPlatforms query env.searchUp = []) :
    (executeWorkflow env query userId).1 =
        [StageName.checkUserLimits, StageName.searchProducts] ∧
      StageName.analyzeMarket ∉ (executeWorkflow env query userId).1 ∧
      (executeWorkflow env query userId).2.error =
        some "Search failed: Error: No products found for the given query" ∧
      (executeWorkflow env query userId).2.marketAnalysis = none := by
  have hs1 := checkUserLimits_ok_shape env (initWfState query userId) s1 hgate
  have hq : s1.query = query := by rw [hs1]; rfl
  have hma : s1.marketAnalysis = none := by rw [hs1]; rfl
  have hsearch : searchProductsNode env s1 = Except.error
      { s1 with error := some "Search failed: Error: No products found for the given query" } := by
    unfold searchProductsNode
    rw [hq, hempty]
    rfl
  have hrun : executeWorkflow env query userId =
      ([StageName.checkUserLimits, StageName.searchProducts],
        { s1 with error := some "Search failed: Error: No products found for the given query" }) := by
    unfold executeWorkflow pipelineStages
    simp only [runPipeline, runStage, hgate, hsearch]
  refine ⟨by rw [hrun], by rw [hrun]; simp, by rw [hrun], by rw [hrun]; exact hma⟩

/-- Witness for `workflow_halts_on_empty_search`: a fresh user passes
the gate and an upstream answer of `[]` forces an empty search result. -/
theorem workflow_halts_on_empty_search_witness :
    (executeWorkflow
        ⟨some ⟨0, none⟩, ⟨1705320000000, 2024, 0, 15⟩, Except.ok "[]",
          Except.error "x", Except.error "x"⟩ "wireless mouse" "u1").1 =
        [StageName.checkUserLimits, StageName.searchProducts] ∧
      StageName.analyzeMarket ∉ (executeWorkflow
        ⟨some ⟨0, none⟩, ⟨1705320000000, 2024, 0, 15⟩, Except.ok "[]",
          Except.error "x", Except.error "x"⟩ "wireless mouse" "u1").1 ∧
      (executeWorkflow
        ⟨some ⟨0, none⟩, ⟨1705320000000, 2024, 0, 15⟩, Except.ok "[]",
          Except.error "x", Except.error "x"⟩ "wireless mouse" "u1").2.error =
        some "Search failed: Error: No products found for the given query" ∧
      (executeWorkflow
        ⟨some ⟨0, none⟩, ⟨1705320000000, 2024, 0, 15⟩, Except.ok "[]",
          Except.error "x", Except.error "x"⟩ "wireless mouse" "u1").2.marketAnalysis =
        none :=
  workflow_halts_on_empty_search
    ⟨some ⟨0, none⟩, ⟨1705320000000, 2024, 0, 15⟩, Except.ok "[]",
      Except.error "x", Except.error "x"⟩ "wireless mouse" "u1"
    { initWfState "wireless mouse" "u1" with
      messages := (initWfState "wireless mouse" "u1").messages ++
        ["User limits checked successfully"] }
    rfl rfl
